import Mathlib

/-!
Verification development for the event-sourcing core of the fk-desktop
repository (`src/fk/core`).  The definitions below are shallow embeddings of
the Python source: `auto_seal.py`, `abstract_event_source.py` and
`backlog_strategies.py` are translated directly; entity classes and strategy
modules that are not part of the provided sources (pomodoro.py,
workitem_strategies.py, pomodoro_strategies.py, the replaying persistence
subclasses) are modelled from the specification and marked as such in their
doc comments.  Timestamps are modelled as integer seconds.
-/

namespace Fk

/-- Event kinds of the core event catalog (from `fk/core/events.py` usage in
the sources under `src/`). -/
inductive Ev
  | beforeMessageProcessed
  | afterMessageProcessed
  | beforeBacklogCreate
  | afterBacklogCreate
  | beforeBacklogDelete
  | afterBacklogDelete
  | beforeWorkitemCreate
  | afterWorkitemCreate
  | beforeWorkitemDelete
  | afterWorkitemDelete
  | beforePomodoroComplete
  | afterPomodoroComplete
  | beforePomodoroRestStart
  | afterPomodoroRestStart
  deriving DecidableEq, Repr

/-- Pomodoro lifecycle states (spec section 3: `idle/new → working → resting →
finished` or `→ canceled`). -/
inductive PomodoroState
  | new
  | working
  | resting
  | finished
  | canceled
  deriving DecidableEq, Repr

/-- Modelled from the spec: `fk/core/pomodoro.py` is not under src/.  A
Pomodoro carries a configured work duration and rest duration (seconds) and,
once started, the planned end-of-work and end-of-rest instants, from which
remaining time is derived as planned end minus now. -/
structure Pomodoro where
  state : PomodoroState
  workDuration : Int
  restDuration : Int
  plannedEndOfWork : Int
  plannedEndOfRest : Int
  deriving DecidableEq, Repr

/-- Modelled from the spec: a pomodoro is running while in `working` or
`resting` state. -/
def Pomodoro.is_running (p : Pomodoro) : Bool :=
  match p.state with
  | .working => true
  | .resting => true
  | _ => false

/-- Modelled from the spec: the pomodoro is in the `working` state. -/
def Pomodoro.is_working (p : Pomodoro) : Bool :=
  match p.state with
  | .working => true
  | _ => false

/-- Modelled from the spec: remaining time until the whole work + rest cycle
ends, derived as the planned end-of-rest minus now. -/
def Pomodoro.total_remaining_time (p : Pomodoro) (now : Int) : Int :=
  p.plannedEndOfRest - now

/-- Modelled from the spec: remaining time in the current state, derived as
the planned end of the current phase minus now. -/
def Pomodoro.remaining_time_in_current_state (p : Pomodoro) (now : Int) : Int :=
  match p.state with
  | .working => p.plannedEndOfWork - now
  | _ => p.plannedEndOfRest - now

/-- Modelled from the spec: effect of `FinishPomodoroInternalStrategy`
(`fk/core/pomodoro_strategies.py` is not under src/): it seals the interval as
implicitly completed, i.e. the pomodoro becomes `finished`. -/
def applyFinish (p : Pomodoro) : Pomodoro :=
  { p with state := .finished }

/-- Modelled from the spec: effect of `StartRestStrategy`
(`fk/core/pomodoro_strategies.py` is not under src/): the pomodoro transitions
into `resting` with the given rest duration, its rest ending at the strategy's
timestamp plus that duration. -/
def applyStartRest (restD whenAt : Int) (p : Pomodoro) : Pomodoro :=
  { p with state := .resting, restDuration := restD,
           plannedEndOfRest := whenAt + restD }

/-- A work item: owns an ordered sequence of pomodoros (spec section 3);
`fk/core/workitem.py` is not under src/, only the fields used by the sources
under src/ are modelled. -/
structure Workitem where
  uid : String
  name : String
  pomodoros : List Pomodoro
  deriving DecidableEq, Repr

/-- A workitem has a running pomodoro when one of its pomodoros is running. -/
def Workitem.has_running_pomodoro (w : Workitem) : Bool :=
  w.pomodoros.any Pomodoro.is_running

/-- Strategy kinds appearing in the embedded sources. -/
inductive StratKind
  | createBacklog
  | deleteBacklog
  | createWorkitem
  | deleteWorkitem
  | startRest
  | finishPomodoroInternal
  deriving DecidableEq, Repr

/-- One invocation of the executor callback supplied to `auto_seal`
(`fk/core/auto_seal.py`): strategy class, parameter list, persist flag and
back-dated timestamp. -/
structure SealCall where
  kind : StratKind
  params : List String
  persist : Bool
  whenAt : Int
  deriving DecidableEq, Repr

/-- The body of the pomodoro loop of `auto_seal` (`fk/core/auto_seal.py`,
lines 30-56), for one pomodoro of the workitem with uid `wuid`: decides which
catch-up strategy (if any) to submit and applies its effect to the pomodoro
(in the source the executor routes the strategy through
`AbstractEventSource.execute`, which mutates this same pomodoro). -/
def sealPomodoro (delta now : Int) (wuid : String) (p : Pomodoro) :
    List SealCall × Pomodoro :=
  if p.is_running then
    if p.total_remaining_time now + delta < 0 then
      ([{ kind := .finishPomodoroInternal, params := [wuid],
          persist := false, whenAt := p.plannedEndOfRest }],
       applyFinish p)
    else if p.is_working then
      if p.remaining_time_in_current_state now + delta < 0 then
        ([{ kind := .startRest, params := [wuid, toString p.restDuration],
            persist := false, whenAt := p.plannedEndOfWork }],
         applyStartRest p.restDuration p.plannedEndOfWork p)
      else ([], p)
    else ([], p)
  else ([], p)

/-- The inner loop of `auto_seal` over the pomodoros of one workitem. -/
def sealWorkitem (delta now : Int) (w : Workitem) : List SealCall × Workitem :=
  let res := w.pomodoros.map (sealPomodoro delta now w.uid)
  ((res.map Prod.fst).flatten, { w with pomodoros := res.map Prod.snd })

/-- `auto_seal` (`fk/core/auto_seal.py`, lines 24-56): runs over every
workitem's pomodoros, synthesizing catch-up strategies for running pomodoros
whose planned transitions have elapsed more than `delta` seconds ago.
Returns the executor invocations in order together with the updated tree
fragment. -/
def auto_seal (delta now : Int) (ws : List Workitem) :
    List SealCall × List Workitem :=
  let res := ws.map (sealWorkitem delta now)
  ((res.map Prod.fst).flatten, res.map Prod.snd)

/-! ## The prepared-execution pipeline, abstractly

`AbstractEventSource.execute_prepared_strategy` (lines 124-135) is embedded
over an abstract strategy behaviour: each invocation of `strategy.execute`
either returns ordinary success, the `'auto-seal'` sentinel holding the
conflicting workitem, or raises.  The trace records every event emission,
every `strategy.execute` invocation and every reconciliation. -/

/-- Outcome of one `strategy.execute` invocation as used by
`execute_prepared_strategy`: `(None, None)`, `('auto-seal', workitem)` (the
conflicting workitem is kept by its name, all the pipeline reads from it), or
an exception. -/
inductive StratResult
  | ok
  | sealConflict (conflictingName : String)
  | raised (msg : String)
  deriving DecidableEq, Repr

/-- One run of a strategy: the events it emits (up to the point where it
raises, if it does) and its result. -/
structure StratOutcome where
  events : List Ev
  result : StratResult
  deriving DecidableEq, Repr

/-- Observable actions of the prepared-execution pipeline. -/
inductive PipelineAction
  | emittedEvent (e : Ev)
  | strategyExecuted
  | reconciled
  deriving DecidableEq, Repr

/-- `AbstractEventSource.execute_prepared_strategy`
(`abstract_event_source.py`, lines 124-135): emits `BeforeMessageProcessed`,
runs `strategy.execute`, emits `AfterMessageProcessed`; on the `'auto-seal'`
sentinel reconciles once and retries `strategy.execute` exactly once more; a
second sentinel raises an exception naming the conflicting workitem.  `first`
and `second` are the outcomes of the first and (if reached) second invocation
of `strategy.execute`.  Returns the action trace and the raised message, if
any. -/
def execute_prepared_strategy (first second : StratOutcome) :
    List PipelineAction × Option String :=
  let t0 : List PipelineAction := [.emittedEvent .beforeMessageProcessed]
  match first.result with
  | .raised m =>
      (t0 ++ [.strategyExecuted] ++ first.events.map .emittedEvent, some m)
  | .ok =>
      (t0 ++ [.strategyExecuted] ++ first.events.map .emittedEvent
          ++ [.emittedEvent .afterMessageProcessed], none)
  | .sealConflict _ =>
      let t1 := t0 ++ [.strategyExecuted] ++ first.events.map .emittedEvent
          ++ [.emittedEvent .afterMessageProcessed]
          ++ [.reconciled, .strategyExecuted]
      match second.result with
      | .raised m => (t1 ++ second.events.map .emittedEvent, some m)
      | .ok => (t1 ++ second.events.map .emittedEvent, none)
      | .sealConflict name =>
          (t1 ++ second.events.map .emittedEvent,
           some ("There is another running pomodoro in \"" ++ name ++ "\""))

/-! ## The domain tree

`Tenant → User → Backlog → Workitem` as ordered uid-keyed mappings
(insertion-ordered dictionaries in the source), modelled as lists carrying
their keys.  `fk/core/user.py`, `backlog.py` and `tenant.py` are not under
src/; the fields modelled are the ones the embedded strategies touch, plus the
bubbled last-modified timestamps (`item_updated`). -/

/-- A backlog: ordered mapping from workitem uid to workitem, plus name and
last-modified timestamp. -/
structure Backlog where
  uid : String
  name : String
  lastModified : Int
  workitems : List Workitem
  deriving DecidableEq, Repr

/-- A user: ordered mapping from backlog uid to backlog. -/
structure User where
  identity : String
  name : String
  lastModified : Int
  backlogs : List Backlog
  deriving DecidableEq, Repr

/-- The tenant root: mapping from user identity to user. -/
abbrev Tenant := List User

/-- `data[identity]` lookup on the tenant mapping. -/
def lookupUser : Tenant → String → Option User
  | [], _ => none
  | u :: rest, id_ =>
      if u.identity == id_ then some u else lookupUser rest id_

/-- In-place mutation of the user stored under `id_` (dictionary keys are
unique in the source, so updating the first match is the dictionary update). -/
def updateUser (t : Tenant) (id_ : String) (f : User → User) : Tenant :=
  match t with
  | [] => []
  | u :: rest =>
      if u.identity == id_ then f u :: rest else u :: updateUser rest id_ f

/-- All backlogs reachable from the tree
(cf. `AbstractEventSource.backlogs`). -/
def allBacklogs (t : Tenant) : List Backlog :=
  (t.map User.backlogs).flatten

/-- All workitems reachable from the tree
(cf. `AbstractEventSource.workitems`). -/
def allWorkitems (t : Tenant) : List Workitem :=
  ((allBacklogs t).map Backlog.workitems).flatten

/-! ## Concrete strategies

Each strategy's `execute(emit, data)` is a function from the tree to the list
of emitted events together with either the updated tree or the message of the
raised exception.  Validation failures raise before any event is emitted and
before any mutation (as in `backlog_strategies.py`). -/

/-- `CreateBacklogStrategy.execute` (`backlog_strategies.py`, lines 49-67):
raises if the backlog uid already exists for the owning user, otherwise
creates the backlog under that user and bubbles `item_updated`. -/
def createBacklogExec (uid nm actor : String) (whenAt : Int) (t : Tenant) :
    List Ev × Except String Tenant :=
  match lookupUser t actor with
  | none => ([], .error ("KeyError: " ++ actor))
  | some u =>
    if u.backlogs.any (fun b => b.uid == uid) then
      ([], .error ("Backlog \"" ++ uid ++ "\" already exists"))
    else
      ([.beforeBacklogCreate, .afterBacklogCreate],
       .ok (updateUser t actor (fun u0 =>
         { u0 with
             backlogs := u0.backlogs
               ++ [{ uid := uid, name := nm, lastModified := whenAt,
                     workitems := [] }],
             lastModified := whenAt })))

/-- Search the user's backlogs in order for a workitem with the given uid. -/
def findWorkitemInBacklogs : List Backlog → String → Option Workitem
  | [], _ => none
  | b :: rest, wuid =>
    match b.workitems.find? (fun w => w.uid == wuid) with
    | some w => some w
    | none => findWorkitemInBacklogs rest wuid

/-- Remove the workitem with the given uid from the first backlog that
contains it (uids are unique keys in the source's dictionaries). -/
def removeWorkitemInBacklogs : List Backlog → String → List Backlog
  | [], _ => []
  | b :: rest, wuid =>
    if b.workitems.any (fun w => w.uid == wuid) then
      { b with workitems := b.workitems.filter (fun w => !(w.uid == wuid)) }
        :: rest
    else b :: removeWorkitemInBacklogs rest wuid

/-- Cancel the running pomodoros of a workitem (effect of the cascaded
`CompletePomodoroStrategy` with target state `canceled`). -/
def cancelRunning (w : Workitem) : Workitem :=
  { w with pomodoros := w.pomodoros.map (fun p =>
      if p.is_running then { p with state := .canceled } else p) }

/-- Modelled from the spec: events emitted by one `DeleteWorkitemStrategy`
execution (`fk/core/workitem_strategies.py` is not under src/; the shape is
fixed by `test_events_delete_workitem`): `BeforeWorkitemDelete`, then — when a
pomodoro is running — a bracketed cascaded `CompletePomodoro('canceled')`
sub-execution, then `AfterWorkitemDelete`. -/
def deleteWorkitemStrategyEvents (w : Workitem) : List Ev :=
  [.beforeWorkitemDelete]
  ++ (if w.has_running_pomodoro then
        [.beforeMessageProcessed, .beforePomodoroComplete,
         .afterPomodoroComplete, .afterMessageProcessed]
      else [])
  ++ [.afterWorkitemDelete]

/-- Modelled from the spec: `DeleteWorkitemStrategy.execute`
(`fk/core/workitem_strategies.py` is not under src/; signature and behaviour
fixed by its callers in `backlog_strategies.py` and by `test_workitems.py`):
resolves the workitem by uid across the actor's backlogs, raises "not found"
if absent, cancels a running pomodoro via a cascaded sub-strategy, and removes
the workitem (with its pomodoros) from its backlog. -/
def deleteWorkitemExec (wuid actor : String) (t : Tenant) :
    List Ev × Except String Tenant :=
  match lookupUser t actor with
  | none => ([], .error ("KeyError: " ++ actor))
  | some u =>
    match findWorkitemInBacklogs u.backlogs wuid with
    | none => ([], .error ("Workitem \"" ++ wuid ++ "\" not found"))
    | some w =>
      (deleteWorkitemStrategyEvents w,
       .ok (updateUser t actor (fun u0 =>
         { u0 with backlogs := removeWorkitemInBacklogs u0.backlogs wuid })))

/-- The cascading loop of `DeleteBacklogStrategy.execute`
(`backlog_strategies.py`, lines 101-106): for each workitem of the backlog, in
order, invoke `DeleteWorkitemStrategy` through `execute_another` against the
same tree and emitter (which brackets the sub-execution with
`BeforeMessageProcessed`/`AfterMessageProcessed`, cf.
`test_events_delete_workitem`).  A raising sub-strategy propagates. -/
def cascadeDeleteWorkitems (actor : String) :
    List Workitem → Tenant → List Ev × Except String Tenant
  | [], t => ([], .ok t)
  | w :: rest, t =>
    match deleteWorkitemExec w.uid actor t with
    | (evs, .error m) => (.beforeMessageProcessed :: evs, .error m)
    | (evs, .ok t') =>
      let tail := cascadeDeleteWorkitems actor rest t'
      (.beforeMessageProcessed :: evs ++ [.afterMessageProcessed] ++ tail.1,
       tail.2)

/-- `DeleteBacklogStrategy.execute` (`backlog_strategies.py`, lines 88-113):
raises if the backlog is not found; otherwise emits `BeforeBacklogDelete`,
deletes every workitem through cascaded `DeleteWorkitemStrategy`
sub-executions, bubbles `item_updated` to the user, deletes the backlog from
the user, and emits `AfterBacklogDelete`. -/
def deleteBacklogExec (buid actor : String) (whenAt : Int) (t : Tenant) :
    List Ev × Except String Tenant :=
  match lookupUser t actor with
  | none => ([], .error ("KeyError: " ++ actor))
  | some u =>
    match u.backlogs.find? (fun b => b.uid == buid) with
    | none => ([], .error ("Backlog \"" ++ buid ++ "\" not found"))
    | some b =>
      match cascadeDeleteWorkitems actor b.workitems t with
      | (evs, .error m) => (.beforeBacklogDelete :: evs, .error m)
      | (evs, .ok t') =>
        (.beforeBacklogDelete :: evs ++ [.afterBacklogDelete],
         .ok (updateUser t' actor (fun u0 =>
           { u0 with
               backlogs := u0.backlogs.filter (fun b0 => !(b0.uid == buid)),
               lastModified := whenAt })))

/-- Append a workitem to the backlog stored under `buid`. -/
def addWorkitemInBacklogs : List Backlog → String → Workitem → List Backlog
  | [], _, _ => []
  | b :: rest, buid, w =>
    if b.uid == buid then { b with workitems := b.workitems ++ [w] } :: rest
    else b :: addWorkitemInBacklogs rest buid w

/-- Modelled from the spec: `CreateWorkitemStrategy.execute`
(`fk/core/workitem_strategies.py` is not under src/; parameters
`[workitem uid, backlog uid, name]` fixed by `test_workitems.py`): raises
"not found" if the backlog does not resolve, "already exists" if the workitem
uid is already present in the same backlog, otherwise adds the workitem. -/
def createWorkitemExec (wuid buid nm actor : String) (t : Tenant) :
    List Ev × Except String Tenant :=
  match lookupUser t actor with
  | none => ([], .error ("KeyError: " ++ actor))
  | some u =>
    match u.backlogs.find? (fun b => b.uid == buid) with
    | none => ([], .error ("Backlog \"" ++ buid ++ "\" not found"))
    | some b =>
      if b.workitems.any (fun w => w.uid == wuid) then
        ([], .error ("Workitem \"" ++ wuid ++ "\" already exists"))
      else
        let w : Workitem := { uid := wuid, name := nm, pomodoros := [] }
        ([.beforeWorkitemCreate, .afterWorkitemCreate],
         .ok (updateUser t actor (fun u0 =>
           { u0 with backlogs := addWorkitemInBacklogs u0.backlogs buid w })))

/-- Modelled from the spec: `StartRestStrategy.execute`
(`fk/core/pomodoro_strategies.py` is not under src/): transitions the
workitem's working pomodoro into `resting`, its rest ending at the strategy's
timestamp plus the given duration. -/
def startRestExec (wuid : String) (restD : Int) (actor : String)
    (whenAt : Int) (t : Tenant) : List Ev × Except String Tenant :=
  match lookupUser t actor with
  | none => ([], .error ("KeyError: " ++ actor))
  | some u =>
    match findWorkitemInBacklogs u.backlogs wuid with
    | none => ([], .error ("Workitem \"" ++ wuid ++ "\" not found"))
    | some w =>
      if w.pomodoros.any Pomodoro.is_working then
        ([.beforePomodoroRestStart, .afterPomodoroRestStart],
         .ok (updateUser t actor (fun u0 =>
           { u0 with backlogs := u0.backlogs.map (fun b =>
               { b with workitems := b.workitems.map (fun w0 =>
                   if w0.uid == wuid then
                     { w0 with pomodoros := w0.pomodoros.map (fun p =>
                         if p.is_working then applyStartRest restD whenAt p
                         else p) }
                   else w0) }) })))
      else ([], .error ("No working pomodoro in \"" ++ wuid ++ "\""))

/-- Modelled from the spec: `FinishPomodoroInternalStrategy.execute`
(`fk/core/pomodoro_strategies.py` is not under src/): seals the workitem's
running pomodoro as implicitly completed (`finished`). -/
def finishPomodoroInternalExec (wuid actor : String) (t : Tenant) :
    List Ev × Except String Tenant :=
  match lookupUser t actor with
  | none => ([], .error ("KeyError: " ++ actor))
  | some u =>
    match findWorkitemInBacklogs u.backlogs wuid with
    | none => ([], .error ("Workitem \"" ++ wuid ++ "\" not found"))
    | some w =>
      if w.has_running_pomodoro then
        ([.beforePomodoroComplete, .afterPomodoroComplete],
         .ok (updateUser t actor (fun u0 =>
           { u0 with backlogs := u0.backlogs.map (fun b =>
               { b with workitems := b.workitems.map (fun w0 =>
                   if w0.uid == wuid then
                     { w0 with pomodoros := w0.pomodoros.map (fun p =>
                         if p.is_running then applyFinish p else p) }
                   else w0) }) })))
      else ([], .error ("No running pomodoro in \"" ++ wuid ++ "\""))

/-! ## The event source -/

/-- A strategy instance as constructed by `AbstractEventSource.execute`:
`(sequence, timestamp, actor identity, kind, parameters)`. -/
structure Strategy where
  seq : Nat
  whenAt : Int
  user : String
  kind : StratKind
  params : List String
  deriving DecidableEq, Repr

/-- Dispatch of `strategy.execute(emit, data)` over the embedded strategy
kinds.  Extra positional parameters are ignored as in the source; missing
ones raise (IndexError in Python). -/
def Strategy.execute (s : Strategy) (t : Tenant) :
    List Ev × Except String Tenant :=
  match s.kind, s.params with
  | .createBacklog, uid :: nm :: _ => createBacklogExec uid nm s.user s.whenAt t
  | .deleteBacklog, uid :: _ => deleteBacklogExec uid s.user s.whenAt t
  | .createWorkitem, wuid :: buid :: nm :: _ =>
      createWorkitemExec wuid buid nm s.user t
  | .deleteWorkitem, wuid :: _ => deleteWorkitemExec wuid s.user t
  | .startRest, wuid :: restStr :: _ =>
      match restStr.toInt? with
      | some d => startRestExec wuid d s.user s.whenAt t
      | none => ([], .error "ValueError")
  | .finishPomodoroInternal, wuid :: _ =>
      finishPomodoroInternalExec wuid s.user t
  | _, _ => ([], .error "IndexError")

/-- The mutable state of an `AbstractEventSource`: the in-memory sequence
counter `_last_seq`, the domain tree, and the durable log written through
`_append`. -/
structure EventSourceState where
  last_seq : Nat
  tree : Tenant
  log : List Strategy
  deriving DecidableEq, Repr

/-- Result of one `AbstractEventSource.execute` call: the state of the source
after the call (exceptions in Python leave the partial mutations in place),
the events emitted, the raised message if any, and the strategy the call
constructed. -/
structure ExecOut where
  state : EventSourceState
  events : List Ev
  err : Option String
  strat : Strategy
  deriving DecidableEq, Repr

/-- `AbstractEventSource.execute` (`abstract_event_source.py`, lines
137-160): computes `new_sequence = _last_seq + 1`, constructs the strategy,
runs it through the prepared-execution path (the embedded strategy kinds
never return the `'auto-seal'` sentinel, so the retry branch of
`execute_prepared_strategy` is not reachable here and the bracketing
`Before`/`AfterMessageProcessed` emissions are inlined); only if execution
succeeded and `persist` is true does it assign `_last_seq = new_sequence` and
then call `_append([s])`.  `appendOk` models whether the abstract `_append`
collaborator succeeds or raises; note that the assignment to `_last_seq`
happens before `_append` in the source. -/
def execute (appendOk : Bool) (st : EventSourceState) (kind : StratKind)
    (params : List String) (persist : Bool) (whenAt : Int) (actor : String) :
    ExecOut :=
  let newSeq := st.last_seq + 1
  let s : Strategy :=
    { seq := newSeq, whenAt := whenAt, user := actor, kind := kind,
      params := params }
  match s.execute st.tree with
  | (evs, .error m) =>
      { state := st, events := .beforeMessageProcessed :: evs,
        err := some m, strat := s }
  | (evs, .ok tree') =>
      let evs2 := .beforeMessageProcessed :: evs ++ [.afterMessageProcessed]
      if persist then
        if appendOk then
          { state := { last_seq := newSeq, tree := tree',
                       log := st.log ++ [s] },
            events := evs2, err := none, strat := s }
        else
          { state := { last_seq := newSeq, tree := tree', log := st.log },
            events := evs2, err := some "append raised", strat := s }
      else
        { state := { st with tree := tree' }, events := evs2, err := none,
          strat := s }

/-- `AbstractEventSource._sequence_error` (`abstract_event_source.py`, lines
195-198). -/
def sequenceErrorMsg (prev next_ : Nat) : String :=
  "Strategies must go in sequence. Received " ++ toString next_
    ++ " after " ++ toString prev
    ++ ". To attempt a repair go to Settings > Connection > Repair."

/-- Modelled from the spec: the replay loop of `start` lives in the
persistence subclasses (file/ephemeral/networked event sources), which are
not under src/.  Per the spec, persisted entries are read in order and
replayed through the prepared-execution path; a non-successor sequence number
raises the sequencing failure (`AbstractEventSource._sequence_error`), and
replay-time failures abort replay rather than skipping the entry. -/
def replay (st : EventSourceState) :
    List Strategy → EventSourceState × Option String
  | [] => (st, none)
  | s :: rest =>
    if s.seq = st.last_seq + 1 then
      match s.execute st.tree with
      | (_, .ok tree') => replay { st with last_seq := s.seq, tree := tree' } rest
      | (_, .error m) => (st, some m)
    else (st, some (sequenceErrorMsg st.last_seq s.seq))

/-! ## Helper lemmas -/

lemma sealPomodoro_persist_false (delta now : Int) (wuid : String)
    (p : Pomodoro) : ∀ c ∈ (sealPomodoro delta now wuid p).1,
    c.persist = false := by
  intro c hc
  unfold sealPomodoro at hc
  split_ifs at hc <;> simp_all

lemma sealWorkitem_persist_false (delta now : Int) (w : Workitem) :
    ∀ c ∈ (sealWorkitem delta now w).1, c.persist = false := by
  intro c hc
  simp only [sealWorkitem, List.mem_flatten, List.mem_map] at hc
  obtain ⟨l, ⟨q, ⟨p, hp, rfl⟩, rfl⟩, hcl⟩ := hc
  exact sealPomodoro_persist_false delta now w.uid p c hcl

lemma auto_seal_persist_false (delta now : Int) (ws : List Workitem) :
    ∀ c ∈ (auto_seal delta now ws).1, c.persist = false := by
  intro c hc
  simp only [auto_seal, List.mem_flatten, List.mem_map] at hc
  obtain ⟨l, ⟨q, ⟨w, hw, rfl⟩, rfl⟩, hcl⟩ := hc
  exact sealWorkitem_persist_false delta now w c hcl

/-- Characterization of `execute` when the strategy raises. -/
lemma execute_eq_error (appendOk : Bool) (st : EventSourceState)
    (kind : StratKind) (params : List String) (persist : Bool) (whenAt : Int)
    (actor : String) (evs : List Ev) (m : String)
    (h : Strategy.execute
          { seq := st.last_seq + 1, whenAt := whenAt, user := actor,
            kind := kind, params := params } st.tree = (evs, .error m)) :
    execute appendOk st kind params persist whenAt actor =
      { state := st, events := .beforeMessageProcessed :: evs,
        err := some m,
        strat := { seq := st.last_seq + 1, whenAt := whenAt, user := actor,
                   kind := kind, params := params } } := by
  simp only [execute, h]

/-- Characterization of `execute` when the strategy succeeds. -/
lemma execute_eq_ok (appendOk : Bool) (st : EventSourceState)
    (kind : StratKind) (params : List String) (persist : Bool) (whenAt : Int)
    (actor : String) (evs : List Ev) (tree' : Tenant)
    (h : Strategy.execute
          { seq := st.last_seq + 1, whenAt := whenAt, user := actor,
            kind := kind, params := params } st.tree = (evs, .ok tree')) :
    execute appendOk st kind params persist whenAt actor =
      (let s : Strategy :=
        { seq := st.last_seq + 1, whenAt := whenAt, user := actor,
          kind := kind, params := params }
       let evs2 := Ev.beforeMessageProcessed :: evs ++ [.afterMessageProcessed]
       if persist then
         if appendOk then
           { state := { last_seq := st.last_seq + 1, tree := tree',
                        log := st.log ++ [s] },
             events := evs2, err := none, strat := s }
         else
           { state := { last_seq := st.last_seq + 1, tree := tree',
                        log := st.log },
             events := evs2, err := some "append raised", strat := s }
       else
         { state := { st with tree := tree' }, events := evs2, err := none,
           strat := s }) := by
  simp only [execute, h]

/-- The `last_seq` counter and the durable log are untouched by any
`execute` call with `persist = false`, and by any call in which the strategy
raises. -/
lemma execute_nonpersist_state (appendOk : Bool) (st : EventSourceState)
    (kind : StratKind) (params : List String) (whenAt : Int) (actor : String) :
    (execute appendOk st kind params false whenAt actor).state.last_seq
        = st.last_seq ∧
    (execute appendOk st kind params false whenAt actor).state.log = st.log := by
  rcases h : Strategy.execute
      { seq := st.last_seq + 1, whenAt := whenAt, user := actor,
        kind := kind, params := params } st.tree with ⟨evs, res⟩
  cases res with
  | error m => rw [execute_eq_error appendOk st kind params false whenAt actor evs m h]; exact ⟨rfl, rfl⟩
  | ok tree' => rw [execute_eq_ok appendOk st kind params false whenAt actor evs tree' h]; exact ⟨rfl, rfl⟩

/-- The strategy constructed by `execute` always carries sequence number
`_last_seq + 1`. -/
lemma execute_strat_seq (appendOk : Bool) (st : EventSourceState)
    (kind : StratKind) (params : List String) (persist : Bool) (whenAt : Int)
    (actor : String) :
    (execute appendOk st kind params persist whenAt actor).strat.seq
      = st.last_seq + 1 := by
  rcases h : Strategy.execute
      { seq := st.last_seq + 1, whenAt := whenAt, user := actor,
        kind := kind, params := params } st.tree with ⟨evs, res⟩
  cases res with
  | error m => rw [execute_eq_error appendOk st kind params persist whenAt actor evs m h]
  | ok tree' =>
      rw [execute_eq_ok appendOk st kind params persist whenAt actor evs tree' h]
      cases persist <;> cases appendOk <;> rfl

/-! ## Concrete scenario from the spec (section 8)

A workitem `w11` holding one pomodoro started at instant 0 with a 1-second
work duration and a 1-second rest duration (planned end-of-work 1, planned
end-of-rest 2), observed at wall-clock instant 3 with grace interval 0. -/

/-- The scenario pomodoro. -/
def pomodoroW11 : Pomodoro :=
  { state := .working, workDuration := 1, restDuration := 1,
    plannedEndOfWork := 1, plannedEndOfRest := 2 }

/-- The scenario workitem. -/
def workitemW11 : Workitem :=
  { uid := "w11", name := "First workitem", pomodoros := [pomodoroW11] }

/-! ## Claims C2, C3, C9 -/

/-- C2 (counterexample): in the spec scenario the Auto-Seal reconciler
synthesizes a catch-up strategy and invokes the executor with the persist
flag set to `false`, not `true` — `auto_seal` (auto_seal.py lines 37-40 and
49-52) hard-codes `False` for the persist argument, also during live
operation. -/
theorem auto_seal_persisted_cex :
    (auto_seal 0 3 [workitemW11]).1.map SealCall.persist = [false] ∧
    ¬ (∀ c ∈ (auto_seal 0 3 [workitemW11]).1, c.persist = true) := by
  refine ⟨by decide, ?_⟩
  intro hall
  have := hall { kind := .finishPomodoroInternal, params := ["w11"],
                 persist := false, whenAt := 2 } (by decide)
  simp at this

/-- C2 (amended): every catch-up strategy synthesized by the Auto-Seal
reconciler — whether during replay or during live operation — is submitted
through the executor callback with the persist flag set to `false`, and an
`execute` call with `persist = false` never appends to the durable log, so
synthesized strategies are never independently persisted. -/
theorem auto_seal_never_persists :
    (∀ delta now ws, ∀ c ∈ (auto_seal delta now ws).1, c.persist = false) ∧
    (∀ appendOk st kind params whenAt actor,
      (execute appendOk st kind params false whenAt actor).state.log
        = st.log) := by
  constructor
  · intro delta now ws c hc
    exact auto_seal_persist_false delta now ws c hc
  · intro appendOk st kind params whenAt actor
    exact (execute_nonpersist_state appendOk st kind params whenAt actor).2

/-- Witness for `auto_seal_never_persists` at the concrete spec scenario. -/
theorem auto_seal_never_persists_witness :
    ({ kind := StratKind.finishPomodoroInternal, params := ["w11"],
       persist := false, whenAt := 2 } : SealCall).persist = false :=
  auto_seal_never_persists.1 0 3 [workitemW11]
    { kind := StratKind.finishPomodoroInternal, params := ["w11"],
      persist := false, whenAt := 2 } (by decide)

/-- C3 (counterexample): in the spec scenario (1-second work, 1-second rest,
wall clock advanced by 3 seconds, grace 0) a single run of the Auto-Seal
reconciler synthesizes exactly ONE catch-up strategy — a
`FinishPomodoroInternal` dated at the planned end-of-rest — not two: a
running pomodoro whose whole work + rest cycle lies in the past takes the
first branch of `auto_seal` (auto_seal.py line 33) and no `StartRest` is
synthesized. -/
theorem auto_seal_two_strategies_cex :
    (auto_seal 0 3 [workitemW11]).1 =
      [{ kind := .finishPomodoroInternal, params := ["w11"],
         persist := false, whenAt := 2 }] ∧
    (auto_seal 0 3 [workitemW11]).1.length ≠ 2 := by decide

/-- C3 (amended): in the spec scenario a single run of the Auto-Seal
reconciler leaves the pomodoro in the `finished` state and synthesizes
exactly one catch-up strategy, `FinishPomodoroInternal` dated at the planned
end-of-rest (instant 2). -/
theorem auto_seal_scenario_amended :
    (auto_seal 0 3 [workitemW11]).1 =
      [{ kind := .finishPomodoroInternal, params := ["w11"],
         persist := false, whenAt := 2 }] ∧
    (auto_seal 0 3 [workitemW11]).2 =
      [{ uid := "w11", name := "First workitem",
         pomodoros := [{ state := .finished, workDuration := 1,
                         restDuration := 1, plannedEndOfWork := 1,
                         plannedEndOfRest := 2 }] }] := by decide

/-- C9: an `execute` call with `persist = false` (which covers every strategy
synthesized by the Auto-Seal reconciler, whose executor callback always
passes persist = false) leaves the `_last_seq` counter unchanged, and the
next strategy constructed by `execute` is stamped with the same sequence
number `_last_seq + 1` that the non-persisted strategy carried. -/
theorem execute_nonpersist_frame :
    (∀ delta now ws,
      ((auto_seal delta now ws).1.all fun c => !c.persist) = true) ∧
    (∀ appendOk st kind params whenAt actor,
      (execute appendOk st kind params false whenAt actor).state.last_seq
        = st.last_seq ∧
      (execute appendOk st kind params false whenAt actor).strat.seq
        = st.last_seq + 1 ∧
      ∀ appendOk2 kind2 params2 persist2 whenAt2 actor2,
        (execute appendOk2
          (execute appendOk st kind params false whenAt actor).state
          kind2 params2 persist2 whenAt2 actor2).strat.seq
          = st.last_seq + 1) := by
  constructor
  · intro delta now ws
    rw [List.all_eq_true]
    intro c hc
    rw [auto_seal_persist_false delta now ws c hc]
    rfl
  · intro appendOk st kind params whenAt actor
    refine ⟨(execute_nonpersist_state appendOk st kind params whenAt actor).1,
      execute_strat_seq appendOk st kind params false whenAt actor, ?_⟩
    intro appendOk2 kind2 params2 persist2 whenAt2 actor2
    rw [execute_strat_seq appendOk2 _ kind2 params2 persist2 whenAt2 actor2,
      (execute_nonpersist_state appendOk st kind params whenAt actor).1]

/-! ## Claims C4 and C10 -/

lemma count_reconciled_map_emitted (l : List Ev) :
    (l.map PipelineAction.emittedEvent).count PipelineAction.reconciled
      = 0 := by
  rw [List.count_eq_zero]
  intro h
  obtain ⟨e, _, he⟩ := List.mem_map.mp h
  exact PipelineAction.noConfusion he

lemma count_executed_map_emitted (l : List Ev) :
    (l.map PipelineAction.emittedEvent).count PipelineAction.strategyExecuted
      = 0 := by
  rw [List.count_eq_zero]
  intro h
  obtain ⟨e, _, he⟩ := List.mem_map.mp h
  exact PipelineAction.noConfusion he

/-- C4: if the first `strategy.execute` returns the `'auto-seal'` sentinel,
`execute_prepared_strategy` reconciles exactly once and runs
`strategy.execute` exactly twice (one retry); if the retry returns the
sentinel again, it raises an exception whose message contains the name of the
workitem holding the conflicting running interval, with no further
reconciliation or retry. -/
theorem double_auto_seal_fatal (first second : StratOutcome) (a n : String)
    (h1 : first.result = .sealConflict a) :
    ((execute_prepared_strategy first second).1.count .reconciled = 1 ∧
     (execute_prepared_strategy first second).1.count .strategyExecuted = 2) ∧
    (second.result = .sealConflict n →
      (execute_prepared_strategy first second).2 =
        some ("There is another running pomodoro in \"" ++ n ++ "\"") ∧
      ∃ pre post, ("There is another running pomodoro in \"" ++ n ++ "\"")
        = pre ++ n ++ post) := by
  constructor
  · unfold execute_prepared_strategy
    rw [h1]
    rcases hr : second.result with _ | nm | m <;>
      simp [List.count_append, List.count_cons, count_reconciled_map_emitted,
        count_executed_map_emitted]
  · intro h2
    unfold execute_prepared_strategy
    rw [h1, h2]
    exact ⟨rfl, "There is another running pomodoro in \"", "\"", rfl⟩

/-- Witness for `double_auto_seal_fatal`: both invocations report a conflict
on the workitem named `w11`. -/
theorem double_auto_seal_fatal_witness :
    ((execute_prepared_strategy ⟨[], .sealConflict "w11"⟩
        ⟨[], .sealConflict "w11"⟩).1.count .reconciled = 1 ∧
     (execute_prepared_strategy ⟨[], .sealConflict "w11"⟩
        ⟨[], .sealConflict "w11"⟩).1.count .strategyExecuted = 2) ∧
    (execute_prepared_strategy ⟨[], .sealConflict "w11"⟩
        ⟨[], .sealConflict "w11"⟩).2 =
      some ("There is another running pomodoro in \"" ++ "w11" ++ "\"") :=
  ⟨(double_auto_seal_fatal ⟨[], .sealConflict "w11"⟩
      ⟨[], .sealConflict "w11"⟩ "w11" "w11" rfl).1,
   ((double_auto_seal_fatal ⟨[], .sealConflict "w11"⟩
      ⟨[], .sealConflict "w11"⟩ "w11" "w11" rfl).2 rfl).1⟩

/-- C10: if `strategy.execute` raises inside `execute_prepared_strategy`, the
`BeforeMessageProcessed` event has already been emitted but the matching
`AfterMessageProcessed` is never emitted — the exception propagates between
the two emissions (for a strategy that does not itself emit
`AfterMessageProcessed`, as no domain strategy does). -/
theorem raise_leaves_before_unpaired (first second : StratOutcome)
    (m : String) (h1 : first.result = .raised m)
    (h2 : Ev.afterMessageProcessed ∉ first.events) :
    (execute_prepared_strategy first second).2 = some m ∧
    PipelineAction.emittedEvent .beforeMessageProcessed
      ∈ (execute_prepared_strategy first second).1 ∧
    PipelineAction.emittedEvent .afterMessageProcessed
      ∉ (execute_prepared_strategy first second).1 := by
  unfold execute_prepared_strategy
  rw [h1]
  refine ⟨rfl, by simp, ?_⟩
  intro hmem
  simp [PipelineAction.emittedEvent.injEq] at hmem
  exact h2 hmem

/-! ## Claims C1 and C6 -/

/-- A tenant holding the single local user, as after the initial
`CreateUserStrategy`. -/
def tenantLocal : Tenant :=
  [{ identity := "user@local.host", name := "Local User", lastModified := 0,
     backlogs := [] }]

/-- A freshly started event source over `tenantLocal`. -/
def sourceInit : EventSourceState :=
  { last_seq := 0, tree := tenantLocal, log := [] }

/-- C1 (counterexample): when the strategy executes successfully but
`_append` raises, the `_last_seq` counter after the failed `execute` call
does NOT equal its value before the call — the source assigns
`self._last_seq = new_sequence` (abstract_event_source.py line 159) before
calling `self._append([s])` (line 160), so the counter remains advanced when
the append raises. -/
theorem append_failure_counter_cex :
    (execute false sourceInit .createBacklog ["b1", "First backlog"] true 0
        "user@local.host").err.isSome = true ∧
    (execute false sourceInit .createBacklog ["b1", "First backlog"] true 0
        "user@local.host").state.last_seq ≠ sourceInit.last_seq := by decide

/-- C1 (amended): for every `execute` call with `persist = true` in which the
strategy executes successfully but `_append` raises, the in-memory sequence
counter `_last_seq` after the failed call equals its value before the call
PLUS ONE — the counter is advanced before the append is attempted — while
the failed strategy is still absent from the durable log. -/
theorem append_failure_advances_counter (st : EventSourceState)
    (kind : StratKind) (params : List String) (whenAt : Int) (actor : String)
    (evs : List Ev) (tree' : Tenant)
    (h : Strategy.execute
          { seq := st.last_seq + 1, whenAt := whenAt, user := actor,
            kind := kind, params := params } st.tree = (evs, .ok tree')) :
    (execute false st kind params true whenAt actor).err
      = some "append raised" ∧
    (execute false st kind params true whenAt actor).state.last_seq
      = st.last_seq + 1 ∧
    (execute false st kind params true whenAt actor).state.log = st.log := by
  rw [execute_eq_ok false st kind params true whenAt actor evs tree' h]
  exact ⟨rfl, rfl, rfl⟩

/-- Witness for `append_failure_advances_counter` on a concrete source. -/
theorem append_failure_advances_counter_witness :
    (execute false sourceInit .createBacklog ["b1", "First backlog"] true 0
        "user@local.host").err = some "append raised" ∧
    (execute false sourceInit .createBacklog ["b1", "First backlog"] true 0
        "user@local.host").state.last_seq = sourceInit.last_seq + 1 ∧
    (execute false sourceInit .createBacklog ["b1", "First backlog"] true 0
        "user@local.host").state.log = sourceInit.log :=
  append_failure_advances_counter sourceInit .createBacklog
    ["b1", "First backlog"] 0 "user@local.host"
    [.beforeBacklogCreate, .afterBacklogCreate] _ rfl

/-- C6: a create strategy targeting a uid already present in the relevant
keyspace — `CreateBacklogStrategy` with an existing backlog uid
(backlog_strategies.py lines 52-54), or `CreateWorkitemStrategy` with a
workitem uid already present in the same backlog — raises an "already
exists" validation failure before emitting any domain event, leaves the tree
(and the whole source state) unchanged, and appends nothing to the durable
log. -/
theorem duplicate_create_rejected (st : EventSourceState) (u : User)
    (b : Backlog) (buid nm wuid nm2 actor : String) (whenAt : Int)
    (appendOk persist2 : Bool)
    (hlook : lookupUser st.tree actor = some u)
    (hdup : u.backlogs.any (fun b0 => b0.uid == buid) = true)
    (hfind : u.backlogs.find? (fun b0 => b0.uid == buid) = some b)
    (hwdup : b.workitems.any (fun w0 => w0.uid == wuid) = true) :
    (createBacklogExec buid nm actor whenAt st.tree =
      ([], .error ("Backlog \"" ++ buid ++ "\" already exists")) ∧
     (execute appendOk st .createBacklog [buid, nm] persist2 whenAt
        actor).state = st ∧
     (execute appendOk st .createBacklog [buid, nm] persist2 whenAt
        actor).events = [.beforeMessageProcessed]) ∧
    (createWorkitemExec wuid buid nm2 actor st.tree =
      ([], .error ("Workitem \"" ++ wuid ++ "\" already exists")) ∧
     (execute appendOk st .createWorkitem [wuid, buid, nm2] persist2 whenAt
        actor).state = st ∧
     (execute appendOk st .createWorkitem [wuid, buid, nm2] persist2 whenAt
        actor).events = [.beforeMessageProcessed]) := by
  have hcb : createBacklogExec buid nm actor whenAt st.tree =
      ([], .error ("Backlog \"" ++ buid ++ "\" already exists")) := by
    simp [createBacklogExec, hlook, hdup]
  have hcw : createWorkitemExec wuid buid nm2 actor st.tree =
      ([], .error ("Workitem \"" ++ wuid ++ "\" already exists")) := by
    simp [createWorkitemExec, hlook, hfind, hwdup]
  have hsb : Strategy.execute
      { seq := st.last_seq + 1, whenAt := whenAt, user := actor,
        kind := .createBacklog, params := [buid, nm] } st.tree =
      ([], .error ("Backlog \"" ++ buid ++ "\" already exists")) := hcb
  have hsw : Strategy.execute
      { seq := st.last_seq + 1, whenAt := whenAt, user := actor,
        kind := .createWorkitem, params := [wuid, buid, nm2] } st.tree =
      ([], .error ("Workitem \"" ++ wuid ++ "\" already exists")) := hcw
  rw [execute_eq_error appendOk st .createBacklog [buid, nm] persist2
        whenAt actor [] _ hsb,
      execute_eq_error appendOk st .createWorkitem [wuid, buid, nm2]
        persist2 whenAt actor [] _ hsw]
  exact ⟨⟨hcb, rfl, rfl⟩, hcw, rfl, rfl⟩

/-- Backlog `b1` containing workitem `w11`, for the C6 witness. -/
def backlogDup : Backlog :=
  { uid := "b1", name := "First backlog", lastModified := 0,
    workitems := [{ uid := "w11", name := "First workitem",
                    pomodoros := [] }] }

/-- A user who already owns `backlogDup`, for the C6 witness. -/
def userDup : User :=
  { identity := "user@local.host", name := "Local User", lastModified := 0,
    backlogs := [backlogDup] }

/-- A source whose tree already contains `b1` and `w11`, for the C6
witness. -/
def sourceDup : EventSourceState :=
  { last_seq := 2, tree := [userDup], log := [] }

/-- Witness for `duplicate_create_rejected`: a source whose user already owns
backlog `b1` containing workitem `w11`. -/
theorem duplicate_create_rejected_witness :
    createBacklogExec "b1" "Again" "user@local.host" 7 sourceDup.tree =
      ([], .error ("Backlog \"" ++ "b1" ++ "\" already exists")) ∧
    createWorkitemExec "w11" "b1" "Again" "user@local.host" sourceDup.tree =
      ([], .error ("Workitem \"" ++ "w11" ++ "\" already exists")) := by
  have h := duplicate_create_rejected sourceDup userDup backlogDup
    "b1" "Again" "w11" "Again" "user@local.host" 7 true true
    (by decide) (by decide) (by decide) (by decide)
  exact ⟨h.1.1, h.2.1⟩

/-- Witness for `raise_leaves_before_unpaired`: a strategy that raises after
emitting its `Before` domain event. -/
theorem raise_leaves_before_unpaired_witness :
    (execute_prepared_strategy
        ⟨[.beforeBacklogCreate], .raised "boom"⟩ ⟨[], .ok⟩).2 = some "boom" ∧
    PipelineAction.emittedEvent .beforeMessageProcessed
      ∈ (execute_prepared_strategy
          ⟨[.beforeBacklogCreate], .raised "boom"⟩ ⟨[], .ok⟩).1 ∧
    PipelineAction.emittedEvent .afterMessageProcessed
      ∉ (execute_prepared_strategy
          ⟨[.beforeBacklogCreate], .raised "boom"⟩ ⟨[], .ok⟩).1 :=
  raise_leaves_before_unpaired ⟨[.beforeBacklogCreate], .raised "boom"⟩
    ⟨[], .ok⟩ "boom" rfl (by decide)

/-! ## Claim C5 -/

/-- Consecutive strategies of the durable log carry successive sequence
numbers. -/
def SeqChain (l : List Strategy) : Prop :=
  l.Chain' (fun a b => b.seq = a.seq + 1)

/-- The event source's sequencing invariant: the durable log is contiguous
and its last entry carries the current `_last_seq`. -/
def SeqInv (st : EventSourceState) : Prop :=
  SeqChain st.log ∧ ∀ s, st.log.getLast? = some s → s.seq = st.last_seq

lemma seqChain_append (l : List Strategy) (n : Nat) (snew : Strategy)
    (hc : SeqChain l) (hlast : ∀ s, l.getLast? = some s → s.seq = n)
    (hs : snew.seq = n + 1) : SeqChain (l ++ [snew]) := by
  rw [SeqChain, List.chain'_append]
  refine ⟨hc, List.chain'_singleton snew, ?_⟩
  intro x hx y hy
  simp only [List.head?_cons, Option.mem_def, Option.some.injEq] at hy
  subst hy
  rw [hs, hlast x hx]

/-- Any successful `execute` preserves the sequencing invariant: a persisted
strategy is appended with sequence `_last_seq + 1` and the counter is set to
it; a non-persisted or failing call leaves log and counter untouched. -/
lemma execute_preserves_seqInv (st : EventSourceState) (kind : StratKind)
    (params : List String) (persist : Bool) (whenAt : Int) (actor : String)
    (hinv : SeqInv st) :
    SeqInv (execute true st kind params persist whenAt actor).state := by
  rcases h : Strategy.execute
      { seq := st.last_seq + 1, whenAt := whenAt, user := actor,
        kind := kind, params := params } st.tree with ⟨evs, res⟩
  cases res with
  | error m =>
      rw [execute_eq_error true st kind params persist whenAt actor evs m h]
      exact hinv
  | ok tree' =>
      rw [execute_eq_ok true st kind params persist whenAt actor evs tree' h]
      cases persist with
      | false => exact hinv
      | true =>
          refine ⟨seqChain_append st.log st.last_seq _ hinv.1 hinv.2 rfl, ?_⟩
          intro s hs
          have hs' : (st.log ++
              [({ seq := st.last_seq + 1, whenAt := whenAt, user := actor,
                  kind := kind, params := params } : Strategy)]).getLast?
              = some s := hs
          rw [List.getLast?_concat, Option.some_inj] at hs'
          subst hs'
          rfl

/-- C5: consecutively accepted-and-persisted strategies carry successive
sequence numbers — every successful `execute` preserves the contiguity
invariant of the durable log — and applying a strategy whose sequence number
is not the successor of the previous one during replay raises the fatal
sequencing error of `AbstractEventSource._sequence_error` and aborts the
replay, rather than skipping or reordering the entry. -/
theorem sequence_rule (st st2 : EventSourceState) (kind : StratKind)
    (params : List String) (persist : Bool) (whenAt : Int) (actor : String)
    (s : Strategy) (rest : List Strategy)
    (hinv : SeqInv st) (hbad : s.seq ≠ st2.last_seq + 1) :
    SeqInv (execute true st kind params persist whenAt actor).state ∧
    SeqChain (execute true st kind params persist whenAt actor).state.log ∧
    replay st2 (s :: rest) =
      (st2, some (sequenceErrorMsg st2.last_seq s.seq)) := by
  refine ⟨execute_preserves_seqInv st kind params persist whenAt actor hinv,
    (execute_preserves_seqInv st kind params persist whenAt actor hinv).1,
    ?_⟩
  unfold replay
  rw [if_neg hbad]

/-- Witness for `sequence_rule`: the fresh source satisfies the invariant,
and replaying sequence 3 after 0 reports the sequencing failure. -/
theorem sequence_rule_witness :
    SeqInv (execute true sourceInit .createBacklog ["b1", "First backlog"]
      true 0 "user@local.host").state ∧
    SeqChain (execute true sourceInit .createBacklog ["b1", "First backlog"]
      true 0 "user@local.host").state.log ∧
    replay sourceInit
      [{ seq := 3, whenAt := 0, user := "user@local.host",
         kind := .createBacklog, params := ["b2", "Second"] }] =
      (sourceInit, some (sequenceErrorMsg sourceInit.last_seq 3)) :=
  sequence_rule sourceInit sourceInit .createBacklog ["b1", "First backlog"]
    true 0 "user@local.host"
    { seq := 3, whenAt := 0, user := "user@local.host",
      kind := .createBacklog, params := ["b2", "Second"] } []
    ⟨List.chain'_nil, fun s hs => Option.noConfusion hs⟩ (by decide)

/-! ## Claim C8 -/

lemma sealPomodoro_not_running (delta now : Int) (wuid : String)
    (p : Pomodoro) (h : p.is_running = false) :
    sealPomodoro delta now wuid p = ([], p) := by
  simp [sealPomodoro, h]

lemma sealPomodoro_expired (delta now : Int) (wuid : String) (p : Pomodoro)
    (hrun : p.is_running = true)
    (hc : p.total_remaining_time now + delta < 0) :
    sealPomodoro delta now wuid p =
      ([{ kind := .finishPomodoroInternal, params := [wuid],
          persist := false, whenAt := p.plannedEndOfRest }],
       applyFinish p) := by
  simp [sealPomodoro, hrun, hc]

lemma sealPomodoro_work_expired (delta now : Int) (wuid : String)
    (p : Pomodoro) (hrun : p.is_running = true)
    (hc : ¬ p.total_remaining_time now + delta < 0)
    (hw : p.is_working = true)
    (hc2 : p.remaining_time_in_current_state now + delta < 0) :
    sealPomodoro delta now wuid p =
      ([{ kind := .startRest, params := [wuid, toString p.restDuration],
          persist := false, whenAt := p.plannedEndOfWork }],
       applyStartRest p.restDuration p.plannedEndOfWork p) := by
  simp [sealPomodoro, hrun, hc, hw, hc2]

lemma sealPomodoro_working_fresh (delta now : Int) (wuid : String)
    (p : Pomodoro) (hrun : p.is_running = true)
    (hc : ¬ p.total_remaining_time now + delta < 0)
    (hw : p.is_working = true)
    (hc2 : ¬ p.remaining_time_in_current_state now + delta < 0) :
    sealPomodoro delta now wuid p = ([], p) := by
  simp [sealPomodoro, hrun, hc, hw, hc2]

lemma sealPomodoro_resting_fresh (delta now : Int) (wuid : String)
    (p : Pomodoro) (hrun : p.is_running = true)
    (hc : ¬ p.total_remaining_time now + delta < 0)
    (hw : p.is_working = false) :
    sealPomodoro delta now wuid p = ([], p) := by
  simp [sealPomodoro, hrun, hc, hw]

lemma applyFinish_not_running (p : Pomodoro) :
    (applyFinish p).is_running = false := rfl

lemma applyStartRest_running (restD whenAt : Int) (p : Pomodoro) :
    (applyStartRest restD whenAt p).is_running = true := rfl

lemma applyStartRest_not_working (restD whenAt : Int) (p : Pomodoro) :
    (applyStartRest restD whenAt p).is_working = false := rfl

/-- Re-running the pomodoro seal step on its own output is a no-op, for any
pomodoro whose planned end-of-rest is its planned end-of-work plus its rest
duration (the shape every started pomodoro has). -/
lemma sealPomodoro_twice (delta now : Int) (wuid : String) (p : Pomodoro)
    (h : p.plannedEndOfRest = p.plannedEndOfWork + p.restDuration) :
    sealPomodoro delta now wuid (sealPomodoro delta now wuid p).2 =
      ([], (sealPomodoro delta now wuid p).2) := by
  by_cases hrun : p.is_running = true
  · by_cases hc : p.total_remaining_time now + delta < 0
    · rw [sealPomodoro_expired delta now wuid p hrun hc]
      exact sealPomodoro_not_running delta now wuid _
        (applyFinish_not_running p)
    · by_cases hw : p.is_working = true
      · by_cases hc2 : p.remaining_time_in_current_state now + delta < 0
        · rw [sealPomodoro_work_expired delta now wuid p hrun hc hw hc2]
          apply sealPomodoro_resting_fresh delta now wuid _
            (applyStartRest_running _ _ _) ?_
            (applyStartRest_not_working _ _ _)
          simp only [Pomodoro.total_remaining_time, applyStartRest] at hc ⊢
          omega
        · rw [sealPomodoro_working_fresh delta now wuid p hrun hc hw hc2]
          exact sealPomodoro_working_fresh delta now wuid p hrun hc hw hc2
      · have hw' : p.is_working = false := by
          revert hw; cases hb : p.is_working <;> simp
        rw [sealPomodoro_resting_fresh delta now wuid p hrun hc hw']
        exact sealPomodoro_resting_fresh delta now wuid p hrun hc hw'
  · have h0 : p.is_running = false := by
      revert hrun; cases hb : p.is_running <;> simp
    rw [sealPomodoro_not_running delta now wuid p h0]
    exact sealPomodoro_not_running delta now wuid p h0

/-- A workitem all of whose pomodoros are fixpoints of the seal step is a
fixpoint of `sealWorkitem`. -/
lemma sealWorkitem_of_fixpoints (delta now : Int) (uid nm : String)
    (qs : List Pomodoro)
    (h : ∀ q ∈ qs, sealPomodoro delta now uid q = ([], q)) :
    sealWorkitem delta now ⟨uid, nm, qs⟩ = ([], ⟨uid, nm, qs⟩) := by
  have hmap : qs.map (sealPomodoro delta now uid)
      = qs.map (fun q => ([], q)) := List.map_congr_left h
  simp only [sealWorkitem]
  rw [hmap]
  simp [List.map_map, Function.comp_def]

/-- The output of `sealWorkitem` is a fixpoint of `sealWorkitem`. -/
lemma sealWorkitem_snd_fixpoint (delta now : Int) (w : Workitem)
    (hcoh : ∀ p ∈ w.pomodoros,
      p.plannedEndOfRest = p.plannedEndOfWork + p.restDuration) :
    sealWorkitem delta now (sealWorkitem delta now w).2 =
      ([], (sealWorkitem delta now w).2) := by
  rcases w with ⟨uid, nm, ps⟩
  have h2 : (sealWorkitem delta now ⟨uid, nm, ps⟩).2
      = ⟨uid, nm, (ps.map (sealPomodoro delta now uid)).map Prod.snd⟩ := rfl
  rw [h2]
  apply sealWorkitem_of_fixpoints
  intro q hq
  simp only [List.mem_map] at hq
  obtain ⟨pr, ⟨p, hp, rfl⟩, rfl⟩ := hq
  exact sealPomodoro_twice delta now uid p (hcoh p hp)

/-- A tree all of whose workitems are fixpoints of `sealWorkitem` is a
fixpoint of `auto_seal`. -/
lemma auto_seal_of_fixpoints (delta now : Int) (ws : List Workitem)
    (h : ∀ w ∈ ws, sealWorkitem delta now w = ([], w)) :
    auto_seal delta now ws = ([], ws) := by
  have hmap : ws.map (sealWorkitem delta now)
      = ws.map (fun w => ([], w)) := List.map_congr_left h
  simp only [auto_seal]
  rw [hmap]
  simp [List.map_map, Function.comp_def]

/-- C8: the Auto-Seal reconciler is idempotent — for any tree (whose started
pomodoros carry planned end-of-rest = planned end-of-work + rest duration)
and fixed wall-clock instant, a second run of `auto_seal` immediately after a
first one synthesizes no strategy and causes no state transition. -/
theorem auto_seal_idempotent (delta now : Int) (ws : List Workitem)
    (h : ∀ w ∈ ws, ∀ p ∈ w.pomodoros,
      p.plannedEndOfRest = p.plannedEndOfWork + p.restDuration) :
    (auto_seal delta now (auto_seal delta now ws).2).1 = [] ∧
    (auto_seal delta now (auto_seal delta now ws).2).2
      = (auto_seal delta now ws).2 := by
  have hfix : ∀ w' ∈ (auto_seal delta now ws).2,
      sealWorkitem delta now w' = ([], w') := by
    intro w' hw'
    simp only [auto_seal, List.mem_map] at hw'
    obtain ⟨pr, ⟨w, hw, rfl⟩, rfl⟩ := hw'
    exact sealWorkitem_snd_fixpoint delta now w (h w hw)
  rw [auto_seal_of_fixpoints delta now _ hfix]
  exact ⟨rfl, rfl⟩

/-- Witness for `auto_seal_idempotent` on the spec scenario tree. -/
theorem auto_seal_idempotent_witness :
    (auto_seal 0 3 (auto_seal 0 3 [workitemW11]).2).1 = [] ∧
    (auto_seal 0 3 (auto_seal 0 3 [workitemW11]).2).2
      = (auto_seal 0 3 [workitemW11]).2 :=
  auto_seal_idempotent 0 3 [workitemW11] (by decide)

/-! ## Claim C7 -/

/-- Replace a user's backlog mapping. -/
def setBacklogs (bl : List Backlog) : User → User :=
  fun u0 => { u0 with backlogs := bl }

lemma lookupUser_identity (t : Tenant) (id_ : String) (u : User)
    (hl : lookupUser t id_ = some u) : u.identity = id_ := by
  induction t with
  | nil => cases hl
  | cons v rest ih =>
      by_cases hv : (v.identity == id_) = true
      · simp only [lookupUser, hv, if_true, Option.some_inj] at hl
        subst hl
        exact eq_of_beq hv
      · simp only [lookupUser, hv, if_false, Bool.false_eq_true] at hl
        exact ih hl

lemma lookupUser_updateUser (t : Tenant) (id_ : String) (f : User → User)
    (hf : ∀ x, (f x).identity = x.identity) :
    lookupUser (updateUser t id_ f) id_ = (lookupUser t id_).map f := by
  induction t with
  | nil => rfl
  | cons v rest ih =>
      by_cases hv : (v.identity == id_) = true
      · simp only [updateUser, lookupUser, hv, if_true]
        have : ((f v).identity == id_) = true := by
          rw [hf v]; exact hv
        simp [lookupUser, this]
      · simp only [updateUser, lookupUser, hv, if_false, Bool.false_eq_true]
        exact ih

lemma updateUser_updateUser (t : Tenant) (id_ : String) (f g : User → User)
    (hf : ∀ x, (f x).identity = x.identity) :
    updateUser (updateUser t id_ f) id_ g
      = updateUser t id_ (fun x => g (f x)) := by
  induction t with
  | nil => rfl
  | cons v rest ih =>
      by_cases hv : (v.identity == id_) = true
      · have : ((f v).identity == id_) = true := by
          rw [hf v]; exact hv
        simp [updateUser, hv, this]
      · simp [updateUser, hv, ih]

lemma updateUser_congr (t : Tenant) (id_ : String) (f g : User → User)
    (u : User) (hl : lookupUser t id_ = some u) (hfg : f u = g u) :
    updateUser t id_ f = updateUser t id_ g := by
  induction t with
  | nil => rfl
  | cons v rest ih =>
      by_cases hv : (v.identity == id_) = true
      · simp only [lookupUser, hv, if_true, Option.some_inj] at hl
        subst hl
        simp [updateUser, hv, hfg]
      · simp only [lookupUser, hv, if_false, Bool.false_eq_true] at hl
        simp [updateUser, hv, ih hl]

lemma updateUser_self (t : Tenant) (id_ : String) (f : User → User)
    (u : User) (hl : lookupUser t id_ = some u) (hfu : f u = u) :
    updateUser t id_ f = t := by
  induction t with
  | nil => rfl
  | cons v rest ih =>
      by_cases hv : (v.identity == id_) = true
      · simp only [lookupUser, hv, if_true, Option.some_inj] at hl
        subst hl
        simp [updateUser, hv, hfu]
      · simp only [lookupUser, hv, if_false, Bool.false_eq_true] at hl
        simp [updateUser, hv, ih hl]

/-- The tenant decomposes around the user found by `lookupUser`, and
`updateUser` rewrites exactly that entry. -/
lemma lookupUser_split (t : Tenant) (id_ : String) (u : User)
    (hl : lookupUser t id_ = some u) :
    ∃ pre post, t = pre ++ u :: post ∧
      (∀ x ∈ pre, (x.identity == id_) = false) ∧
      ∀ f, updateUser t id_ f = pre ++ f u :: post := by
  induction t with
  | nil => cases hl
  | cons v rest ih =>
      by_cases hv : (v.identity == id_) = true
      · simp only [lookupUser, hv, if_true, Option.some_inj] at hl
        subst hl
        refine ⟨[], rest, rfl, by simp, fun f => ?_⟩
        simp [updateUser, hv]
      · simp only [lookupUser, hv, if_false, Bool.false_eq_true] at hl
        obtain ⟨pre, post, rfl, hpre, hupd⟩ := ih hl
        refine ⟨v :: pre, post, rfl, ?_, fun f => ?_⟩
        · intro x hx
          rcases List.mem_cons.mp hx with rfl | hx
          · exact Bool.eq_false_iff.mpr (fun hc => hv hc)
          · exact hpre x hx
        · simp [updateUser, hv, hupd f]

lemma findWorkitemInBacklogs_append (pre l : List Backlog) (wuid : String)
    (h : ∀ b ∈ pre, ∀ w ∈ b.workitems, (w.uid == wuid) = false) :
    findWorkitemInBacklogs (pre ++ l) wuid
      = findWorkitemInBacklogs l wuid := by
  induction pre with
  | nil => rfl
  | cons b rest ih =>
      have hb : b.workitems.find? (fun w => w.uid == wuid) = none := by
        rw [List.find?_eq_none]
        intro w hw
        simp [h b (List.mem_cons_self b rest) w hw]
      simp only [List.cons_append, findWorkitemInBacklogs, hb]
      exact ih (fun b' hb' w hw => h b' (List.mem_cons_of_mem b hb') w hw)

lemma removeWorkitemInBacklogs_append (pre l : List Backlog) (wuid : String)
    (h : ∀ b ∈ pre, ∀ w ∈ b.workitems, (w.uid == wuid) = false) :
    removeWorkitemInBacklogs (pre ++ l) wuid
      = pre ++ removeWorkitemInBacklogs l wuid := by
  induction pre with
  | nil => rfl
  | cons b rest ih =>
      have hb : b.workitems.any (fun w => w.uid == wuid) = false := by
        rw [List.any_eq_false]
        intro w hw
        simp [h b (List.mem_cons_self b rest) w hw]
      simp only [List.cons_append, removeWorkitemInBacklogs, hb,
        Bool.false_eq_true, if_false]
      exact congrArg (b :: ·)
        (ih (fun b' hb' w hw => h b' (List.mem_cons_of_mem b hb') w hw))

/-- The cascading workitem-deletion loop of `DeleteBacklogStrategy.execute`:
deleting the listed workitems one by one empties the backlog, leaves every
other backlog untouched, and emits one bracketed `DeleteWorkitemStrategy`
sub-execution per workitem, in order. -/
lemma cascade_delete_spec (t : Tenant) (actor : String) (u : User)
    (Bpre Bpost : List Backlog) (b : Backlog)
    (hl : lookupUser t actor = some u) :
    ∀ ws : List Workitem,
      ws.Pairwise (fun a c => a.uid ≠ c.uid) →
      (∀ w ∈ ws, ∀ b' ∈ Bpre, ∀ w' ∈ b'.workitems,
        (w'.uid == w.uid) = false) →
      cascadeDeleteWorkitems actor ws
        (updateUser t actor
          (setBacklogs (Bpre ++ ({ b with workitems := ws }) :: Bpost)))
      = ((ws.map (fun w => Ev.beforeMessageProcessed ::
            (deleteWorkitemStrategyEvents w
              ++ [Ev.afterMessageProcessed]))).flatten,
         .ok (updateUser t actor
          (setBacklogs (Bpre ++ ({ b with workitems := [] }) :: Bpost)))) := by
  intro ws
  induction ws with
  | nil => intro _ _; rfl
  | cons w ws' ih =>
      intro hpair hpre
      have hpairtail : ws'.Pairwise (fun a c => a.uid ≠ c.uid) :=
        (List.pairwise_cons.mp hpair).2
      have hheadtail : ∀ w' ∈ ws', w.uid ≠ w'.uid :=
        (List.pairwise_cons.mp hpair).1
      have hpretail : ∀ x ∈ ws', ∀ b' ∈ Bpre, ∀ w' ∈ b'.workitems,
          (w'.uid == x.uid) = false :=
        fun x hx => hpre x (List.mem_cons_of_mem w hx)
      have hprehead : ∀ b' ∈ Bpre, ∀ w' ∈ b'.workitems,
          (w'.uid == w.uid) = false :=
        hpre w (List.mem_cons_self w ws')
      have hlook2 : lookupUser (updateUser t actor
          (setBacklogs (Bpre ++ ({ b with workitems := w :: ws' }) :: Bpost)))
          actor = some (setBacklogs
            (Bpre ++ ({ b with workitems := w :: ws' }) :: Bpost) u) := by
        rw [lookupUser_updateUser t actor
          (setBacklogs (Bpre ++ ({ b with workitems := w :: ws' }) :: Bpost))
          (fun x => rfl), hl]
        rfl
      have hfindaux : (w :: ws').find? (fun w0 => w0.uid == w.uid)
          = some w := List.find?_cons_of_pos _ (by simp)
      have hfind : findWorkitemInBacklogs
          (Bpre ++ ({ b with workitems := w :: ws' }) :: Bpost) w.uid
          = some w := by
        rw [findWorkitemInBacklogs_append Bpre _ w.uid hprehead]
        simp only [findWorkitemInBacklogs, hfindaux]
      have hany : (w :: ws').any (fun w0 => w0.uid == w.uid) = true := by
        simp
      have hfilter : (w :: ws').filter (fun w0 => !(w0.uid == w.uid))
          = ws' := by
        rw [List.filter_cons]
        simp only [beq_self_eq_true, Bool.not_true, Bool.false_eq_true,
          if_false]
        refine List.filter_eq_self.mpr (fun w' hw' => ?_)
        have hne : w'.uid ≠ w.uid := fun hcontra => hheadtail w' hw' hcontra.symm
        simp [hne]
      have hremove : removeWorkitemInBacklogs
          (Bpre ++ ({ b with workitems := w :: ws' }) :: Bpost) w.uid
          = Bpre ++ ({ b with workitems := ws' }) :: Bpost := by
        rw [removeWorkitemInBacklogs_append Bpre _ w.uid hprehead]
        simp only [removeWorkitemInBacklogs, hany, if_true, hfilter]
      have hdel : deleteWorkitemExec w.uid actor
          (updateUser t actor
            (setBacklogs (Bpre ++ ({ b with workitems := w :: ws' }) :: Bpost)))
          = (deleteWorkitemStrategyEvents w,
             .ok (updateUser t actor
              (setBacklogs (Bpre ++ ({ b with workitems := ws' }) :: Bpost)))) := by
        simp only [deleteWorkitemExec, hlook2, setBacklogs, hfind]
        rw [updateUser_updateUser t actor
          (setBacklogs (Bpre ++ ({ b with workitems := w :: ws' }) :: Bpost))
          (fun u0 =>
            { u0 with backlogs := removeWorkitemInBacklogs u0.backlogs w.uid })
          (fun x => rfl)]
        refine congrArg _ (congrArg _ ?_)
        refine updateUser_congr t actor _ _ u hl ?_
        simp only [setBacklogs, hremove]
      simp only [cascadeDeleteWorkitems, hdel]
      rw [ih hpairtail hpretail]
      simp [List.append_assoc]

lemma find?_append_cons {α : Type} (p : α → Bool) (pre : List α) (x : α)
    (post : List α) (hpre : ∀ y ∈ pre, p y = false) (hx : p x = true) :
    (pre ++ x :: post).find? p = some x := by
  induction pre with
  | nil => exact List.find?_cons_of_pos post hx
  | cons a rest ih =>
      rw [List.cons_append, List.find?_cons_of_neg _
        (by simp [hpre a (List.mem_cons_self a rest)])]
      exact ih (fun y hy => hpre y (List.mem_cons_of_mem a hy))

lemma mem_allBacklogs (t : Tenant) (x : Backlog) :
    x ∈ allBacklogs t ↔ ∃ v ∈ t, x ∈ v.backlogs := by
  simp [allBacklogs, List.mem_flatten]

lemma mem_allWorkitems (t : Tenant) (x : Workitem) :
    x ∈ allWorkitems t ↔ ∃ bb ∈ allBacklogs t, x ∈ bb.workitems := by
  simp [allWorkitems, List.mem_flatten]

/-- C7: executing `DeleteBacklogStrategy` on an existing backlog deletes every
one of its workitems by one `DeleteWorkitemStrategy` sub-execution per
workitem against the same tree and emitter (visible as one bracketed
delete-workitem event block per workitem, in order), then removes the backlog
from its owning user; afterwards neither the backlog nor any of its former
workitems is reachable from the tree.  The ownership hypotheses state what
the source's dictionaries guarantee: uid keys are unique within their
keyspace and entities are owned by exactly one parent. -/
theorem delete_backlog_cascades (t : Tenant) (actor : String) (u : User)
    (Bpre Bpost : List Backlog) (b : Backlog) (whenAt : Int)
    (hl : lookupUser t actor = some u)
    (hbl : u.backlogs = Bpre ++ b :: Bpost)
    (hkeys : ∀ b' ∈ Bpre ++ Bpost, (b'.uid == b.uid) = false)
    (hpair : b.workitems.Pairwise (fun a c => a.uid ≠ c.uid))
    (hwelse : ∀ w ∈ b.workitems, ∀ b' ∈ Bpre ++ Bpost,
      ∀ w' ∈ b'.workitems, w'.uid ≠ w.uid)
    (hids : (t.map User.identity).Nodup)
    (hothers : ∀ v ∈ t, v.identity ≠ actor →
      b ∉ v.backlogs ∧
      ∀ w ∈ b.workitems, ∀ b' ∈ v.backlogs, w ∉ b'.workitems) :
    deleteBacklogExec b.uid actor whenAt t
      = (Ev.beforeBacklogDelete ::
          ((b.workitems.map (fun w => Ev.beforeMessageProcessed ::
             (deleteWorkitemStrategyEvents w
               ++ [Ev.afterMessageProcessed]))).flatten
           ++ [Ev.afterBacklogDelete]),
         .ok (updateUser t actor (fun u0 =>
           { u0 with backlogs := Bpre ++ Bpost,
                     lastModified := whenAt }))) ∧
    b ∉ allBacklogs (updateUser t actor (fun u0 =>
      { u0 with backlogs := Bpre ++ Bpost, lastModified := whenAt })) ∧
    ∀ w ∈ b.workitems, w ∉ allWorkitems (updateUser t actor (fun u0 =>
      { u0 with backlogs := Bpre ++ Bpost, lastModified := whenAt })) := by
  have hwelse' : ∀ w ∈ b.workitems, ∀ b' ∈ Bpre, ∀ w' ∈ b'.workitems,
      (w'.uid == w.uid) = false := fun w hw b' hb' w' hw' =>
    beq_eq_false_iff_ne.mpr
      (hwelse w hw b' (List.mem_append_left Bpost hb') w' hw')
  have hfindb : u.backlogs.find? (fun b0 => b0.uid == b.uid) = some b := by
    rw [hbl]
    exact find?_append_cons _ Bpre b Bpost
      (fun y hy => hkeys y (List.mem_append_left Bpost hy)) (by simp)
  have hb_eta : ({ b with workitems := b.workitems } : Backlog) = b := rfl
  have hstart : updateUser t actor
      (setBacklogs (Bpre ++ b :: Bpost)) = t := by
    refine updateUser_self t actor _ u hl ?_
    show { u with backlogs := Bpre ++ b :: Bpost } = u
    rw [← hbl]
  have hcasc := cascade_delete_spec t actor u Bpre Bpost b hl
    b.workitems hpair hwelse'
  rw [hb_eta, hstart] at hcasc
  have hmain : deleteBacklogExec b.uid actor whenAt t
      = (Ev.beforeBacklogDelete ::
          ((b.workitems.map (fun w => Ev.beforeMessageProcessed ::
             (deleteWorkitemStrategyEvents w
               ++ [Ev.afterMessageProcessed]))).flatten
           ++ [Ev.afterBacklogDelete]),
         .ok (updateUser t actor (fun u0 =>
           { u0 with backlogs := Bpre ++ Bpost,
                     lastModified := whenAt }))) := by
    simp only [deleteBacklogExec, hl, hfindb, hcasc]
    rw [updateUser_updateUser t actor
      (setBacklogs (Bpre ++ ({ b with workitems := [] }) :: Bpost))
      (fun u0 =>
        { u0 with backlogs := u0.backlogs.filter (fun b0 => !(b0.uid == b.uid)),
                  lastModified := whenAt })
      (fun x => rfl)]
    refine congrArg _ (congrArg _ ?_)
    refine updateUser_congr t actor _ _ u hl ?_
    have hfilterfin : (Bpre ++ ({ b with workitems := [] }) :: Bpost).filter
        (fun b0 => !(b0.uid == b.uid)) = Bpre ++ Bpost := by
      rw [List.filter_append, List.filter_cons]
      have hhead : (!(({ b with workitems := [] } : Backlog).uid == b.uid))
          = false := by simp
      rw [hhead]
      simp only [Bool.false_eq_true, if_false]
      rw [List.filter_eq_self.mpr (fun y hy => by
            simp [hkeys y (List.mem_append_left Bpost hy)]),
          List.filter_eq_self.mpr (fun y hy => by
            simp [hkeys y (List.mem_append_right Bpre hy)])]
    simp only [setBacklogs, hfilterfin]
  obtain ⟨pre, post, ht, hpreid, hupd⟩ := lookupUser_split t actor u hl
  have huid : u.identity = actor := lookupUser_identity t actor u hl
  have hpostid : ∀ v ∈ post, v.identity ≠ actor := by
    intro v hv hva
    rw [ht, List.map_append, List.map_cons] at hids
    have h3 := (List.nodup_cons.mp (hids.of_append_right)).1
    exact h3 (by rw [huid, ← hva]; exact List.mem_map_of_mem _ hv)
  have hpreid' : ∀ v ∈ pre, v.identity ≠ actor := by
    intro v hv hva
    have := hpreid v hv
    rw [hva] at this
    simp at this
  have hmempre : ∀ v ∈ pre, v ∈ t := by
    intro v hv; rw [ht]; exact List.mem_append_left _ hv
  have hmempost : ∀ v ∈ post, v ∈ t := by
    intro v hv
    rw [ht]
    exact List.mem_append_right _ (List.mem_cons_of_mem u hv)
  have hupdt := hupd (fun u0 =>
    { u0 with backlogs := Bpre ++ Bpost, lastModified := whenAt })
  refine ⟨hmain, ?_, ?_⟩
  · rw [hupdt]
    intro hmem
    obtain ⟨v, hv, hbv⟩ := (mem_allBacklogs _ b).mp hmem
    rcases List.mem_append.mp hv with hvpre | hvcons
    · exact (hothers v (hmempre v hvpre) (hpreid' v hvpre)).1 hbv
    · rcases List.mem_cons.mp hvcons with rfl | hvpost
      · have : (b.uid == b.uid) = false := by
          rcases List.mem_append.mp hbv with h | h
          · exact hkeys b (List.mem_append_left Bpost h)
          · exact hkeys b (List.mem_append_right Bpre h)
        simp at this
      · exact (hothers v (hmempost v hvpost) (hpostid v hvpost)).1 hbv
  · intro w hw
    rw [hupdt]
    intro hmem
    obtain ⟨bb, hbb, hwbb⟩ := (mem_allWorkitems _ w).mp hmem
    obtain ⟨v, hv, hbv⟩ := (mem_allBacklogs _ bb).mp hbb
    rcases List.mem_append.mp hv with hvpre | hvcons
    · exact (hothers v (hmempre v hvpre) (hpreid' v hvpre)).2 w hw bb hbv hwbb
    · rcases List.mem_cons.mp hvcons with rfl | hvpost
      · have : w.uid ≠ w.uid := by
          rcases List.mem_append.mp hbv with h | h
          · exact hwelse w hw bb (List.mem_append_left Bpost h) w hwbb
          · exact hwelse w hw bb (List.mem_append_right Bpre h) w hwbb
        exact this rfl
      · exact (hothers v (hmempost v hvpost) (hpostid v hvpost)).2
          w hw bb hbv hwbb

/-- A started pomodoro, for the C7 witness. -/
def pomodoroDel : Pomodoro :=
  { state := .working, workDuration := 25, restDuration := 5,
    plannedEndOfWork := 25, plannedEndOfRest := 30 }

/-- A plain workitem of the backlog to delete. -/
def workitemDel1 : Workitem :=
  { uid := "w11", name := "First item", pomodoros := [] }

/-- A workitem of the backlog to delete holding a running pomodoro. -/
def workitemDel2 : Workitem :=
  { uid := "w12", name := "Second item", pomodoros := [pomodoroDel] }

/-- The backlog to delete, with two workitems. -/
def backlogDel : Backlog :=
  { uid := "b1", name := "First backlog", lastModified := 0,
    workitems := [workitemDel1, workitemDel2] }

/-- A sibling backlog that must survive the deletion. -/
def backlogOther : Backlog :=
  { uid := "b2", name := "Other backlog", lastModified := 0,
    workitems := [] }

/-- The owning user, for the C7 witness. -/
def userDel : User :=
  { identity := "user@local.host", name := "Local User", lastModified := 0,
    backlogs := [backlogDel, backlogOther] }

/-- The C7 witness tenant. -/
def tenantDel : Tenant := [userDel]

/-- Witness for `delete_backlog_cascades` on a concrete two-workitem
backlog. -/
theorem delete_backlog_cascades_witness :
    deleteBacklogExec backlogDel.uid "user@local.host" 9 tenantDel
      = (Ev.beforeBacklogDelete ::
          ((backlogDel.workitems.map (fun w => Ev.beforeMessageProcessed ::
             (deleteWorkitemStrategyEvents w
               ++ [Ev.afterMessageProcessed]))).flatten
           ++ [Ev.afterBacklogDelete]),
         .ok (updateUser tenantDel "user@local.host" (fun u0 =>
           { u0 with backlogs := [] ++ [backlogOther], lastModified := 9 }))) ∧
    backlogDel ∉ allBacklogs (updateUser tenantDel "user@local.host"
      (fun u0 =>
        { u0 with backlogs := [] ++ [backlogOther], lastModified := 9 })) ∧
    ∀ w ∈ backlogDel.workitems,
      w ∉ allWorkitems (updateUser tenantDel "user@local.host" (fun u0 =>
        { u0 with backlogs := [] ++ [backlogOther], lastModified := 9 })) :=
  delete_backlog_cascades tenantDel "user@local.host" userDel []
    [backlogOther] backlogDel 9 (by decide) (by decide) (by decide)
    (by decide) (by decide) (by decide) (by decide)

end Fk
